import Mathlib

set_option maxRecDepth 100000

/-- Model of JS `String.prototype.includes` on character lists: true exactly
when `pat` occurs contiguously inside the list. -/
def listIncludes (pat : List Char) : List Char → Bool
  | [] => pat.isPrefixOf ([] : List Char)
  | c :: rest => pat.isPrefixOf (c :: rest) || listIncludes pat rest

/-- Model of JS `s.includes(pat)` for strings (used by the legacy phrase scan
and by the token-limit check on error bodies). -/
def strIncludes (s pat : String) : Bool := listIncludes pat.toList s.toList

/-- Model of JS `s.toLowerCase()`: lowercase every character (the configured
phrases are ASCII, where the two functions agree). -/
def strToLower (s : String) : String := String.mk (s.data.map Char.toLower)

/-- The list `CONFIG.APPROVAL_PHRASES` from `src/src/index.js`. -/
def APPROVAL_PHRASES : List String :=
  ["safe to merge", "✅ safe to merge", "merge approved",
   "no critical issues", "safe to commit", "approved for merge",
   "proceed with merge", "merge is safe"]

/-- The list `CONFIG.BLOCKING_PHRASES` from `src/src/index.js`. -/
def BLOCKING_PHRASES : List String :=
  ["do not merge", "❌ do not merge", "block merge",
   "merge blocked", "not safe to merge", "critical issues found",
   "must be fixed", "blockers found"]

/-- The list `CONFIG.CRITICAL_ISSUES` from `src/src/index.js`. -/
def CRITICAL_ISSUES : List String :=
  ["security vulnerability", "security issue", "critical bug",
   "memory leak", "race condition", "xss vulnerability",
   "authentication issue", "authorization problem"]

/-- The constant `CONFIG.DEFAULT_CHUNK_SIZE = 300 * 1024` from
`src/src/index.js`; the reviewer constructor sets
`this.chunkSize = CONFIG.DEFAULT_CHUNK_SIZE`. -/
def DEFAULT_CHUNK_SIZE : Int := 300 * 1024

/-- The number of UTF-8 bytes used to encode one character (1 to 4 bytes,
by codepoint range). -/
def charUtf8Size (c : Char) : Nat :=
  if c.val < 0x80 then 1
  else if c.val < 0x800 then 2
  else if c.val < 0x10000 then 3
  else 4

/-- Model of Node `Buffer.byteLength(s, 'utf8')`: the number of bytes of the
UTF-8 serialization of `s` (not the character count). -/
def byteLength (s : String) : Nat := (s.data.map charUtf8Size).sum

/-- The file-boundary marker used by the regex
`/(?=--- File: )/` in `splitDiffIntoChunks`. -/
def fileMarker : List Char := "--- File: ".toList

/-- Model of the lookahead split `diff.split(/(?=--- File: )/)` on character
lists: the input is cut immediately before every occurrence of `fileMarker`
except at position 0, and no character is dropped. `acc` is the current
section accumulated in reverse. A zero-width match at position 0 does not
produce a leading empty piece, matching the JS `String.prototype.split`
algorithm. -/
def sectionsGo (acc : List Char) : List Char → List (List Char)
  | [] => [acc.reverse]
  | c :: rest =>
      if fileMarker.isPrefixOf (c :: rest) ∧ acc ≠ [] then
        acc.reverse :: sectionsGo [c] rest
      else
        sectionsGo (c :: acc) rest

/-- Model of `diff.split(/(?=--- File: )/)` on strings. -/
def splitFileSections (s : String) : List String :=
  (sectionsGo [] s.toList).map (fun l => String.mk l)

/-- The accumulation loop of `splitDiffIntoChunks` (`src/src/index.js`
lines 641-665): walk the file sections in order keeping a running buffer
`currentChunk` with running byte count `currentSize`; when appending the next
section would push the count over `chunkSize` and the buffer is non-empty,
seal the buffer and start a new one with that section; after the last section
seal any non-empty remaining buffer. -/
def chunkLoop (chunkSize : Int) : List String → String → Int → List String
  | [], currentChunk, _ =>
      if currentChunk.length > 0 then [currentChunk] else []
  | s :: rest, currentChunk, currentSize =>
      let sectionSize : Int := (byteLength s : Int)
      if currentSize + sectionSize > chunkSize ∧ currentChunk.length > 0 then
        currentChunk :: chunkLoop chunkSize rest s sectionSize
      else
        chunkLoop chunkSize rest (currentChunk ++ s) (currentSize + sectionSize)

/-- Model of `splitDiffIntoChunks(diff, maxChunkSize = null)`
(`src/src/index.js` lines 628-675). The reviewer instance state
`this.chunkSize` is passed explicitly as `instChunkSize`; the JS default
`maxChunkSize = null` is `none`. The JS expression
`maxChunkSize || this.chunkSize` yields `this.chunkSize` when `maxChunkSize`
is `null` or the falsy number 0, and yields `maxChunkSize` itself otherwise
(negative numbers are truthy). An empty diff returns the empty list; a
non-positive effective chunk size returns the whole diff as a single chunk. -/
def splitDiffIntoChunks (instChunkSize : Int) (diff : String)
    (maxChunkSize : Option Int) : List String :=
  let chunkSize : Int :=
    match maxChunkSize with
    | none => instChunkSize
    | some m => if m = 0 then instChunkSize else m
  if diff.length = 0 then []
  else if chunkSize ≤ 0 then [diff]
  else chunkLoop chunkSize (splitFileSections diff) "" 0

theorem sectionsGo_foldr (cs : List Char) : ∀ acc : List Char,
    (sectionsGo acc cs).foldr (· ++ ·) [] = acc.reverse ++ cs := by
  induction cs with
  | nil => intro acc; simp [sectionsGo]
  | cons c rest ih =>
      intro acc
      by_cases h : fileMarker.isPrefixOf (c :: rest) ∧ acc ≠ []
      · simp only [sectionsGo, if_pos h, List.foldr_cons, ih [c]]
        simp
      · simp only [sectionsGo, if_neg h, ih (c :: acc)]
        simp

theorem string_foldl_append (L : List String) : ∀ a : String,
    L.foldl (fun r s => r ++ s) a = a ++ String.join L := by
  induction L with
  | nil => intro a; simp [String.join]
  | cons s L ih =>
      intro a
      show L.foldl (fun r s => r ++ s) (a ++ s) = a ++ String.join (s :: L)
      rw [ih (a ++ s)]
      show a ++ s ++ String.join L = a ++ L.foldl (fun r s => r ++ s) ("" ++ s)
      rw [ih ("" ++ s)]
      rw [String.append_assoc]
      simp

theorem string_join_cons (s : String) (L : List String) :
    String.join (s :: L) = s ++ String.join L := by
  show L.foldl (fun r s => r ++ s) ("" ++ s) = s ++ String.join L
  rw [string_foldl_append]
  simp

theorem string_join_map_mk (L : List (List Char)) :
    String.join (L.map (fun l => String.mk l)) =
      String.mk (L.foldr (· ++ ·) []) := by
  induction L with
  | nil => rfl
  | cons a L ih =>
      rw [List.map_cons, string_join_cons, ih]
      rfl

/-- Concatenating the pieces of the file-section split reproduces the
original diff string. -/
theorem splitFileSections_join (s : String) :
    String.join (splitFileSections s) = s := by
  unfold splitFileSections
  rw [string_join_map_mk, sectionsGo_foldr]
  simp

theorem string_length_zero {s : String} (h : s.length = 0) : s = "" := by
  cases s with
  | mk d =>
      cases d with
      | nil => rfl
      | cons c t => simp [String.length] at h

theorem chunkLoop_join (k : Int) (sections : List String) : ∀ (cur : String) (sz : Int),
    String.join (chunkLoop k sections cur sz) = cur ++ String.join sections := by
  induction sections with
  | nil =>
      intro cur sz
      by_cases h : cur.length > 0
      · simp only [chunkLoop, if_pos h, string_join_cons]
      · have hc : cur = "" := string_length_zero (by omega)
        subst hc
        simp [chunkLoop, String.join]
  | cons s rest ih =>
      intro cur sz
      by_cases h : sz + (byteLength s : Int) > k ∧ cur.length > 0
      · simp only [chunkLoop, if_pos h, string_join_cons, ih]
      · simp only [chunkLoop, if_neg h, ih]
        rw [string_join_cons, String.append_assoc]

/-- C3: for every diff string and positive chunk size, the returned chunks
concatenate in order back to the original diff exactly, and the empty diff
yields the empty chunk list. -/
theorem splitDiffIntoChunks_complete (instCS : Int) (diff : String) (m : Int)
    (hm : 0 < m) :
    String.join (splitDiffIntoChunks instCS diff (some m)) = diff ∧
    splitDiffIntoChunks instCS "" (some m) = [] := by
  constructor
  · have hm0 : ¬(m = 0) := by omega
    have hm1 : ¬(m ≤ 0) := by omega
    by_cases hd : diff.length = 0
    · have hc : diff = "" := string_length_zero hd
      subst hc
      simp [splitDiffIntoChunks, String.join]
    · simp only [splitDiffIntoChunks, hm0, if_false, if_neg hd, if_neg hm1]
      rw [chunkLoop_join, splitFileSections_join]
      simp
  · simp [splitDiffIntoChunks]

/-- Witness for C3 at a concrete two-file diff and chunk size 20. -/
theorem splitDiffIntoChunks_complete_witness :
    String.join (splitDiffIntoChunks 300 "--- File: x ---b--- File: y ---c" (some 20)) =
        "--- File: x ---b--- File: y ---c" ∧
    splitDiffIntoChunks 300 "" (some 20) = [] :=
  splitDiffIntoChunks_complete 300 "--- File: x ---b--- File: y ---c" 20 (by decide)

theorem byteLength_empty : byteLength "" = 0 := rfl

theorem byteLength_append (a b : String) :
    byteLength (a ++ b) = byteLength a + byteLength b := by
  cases a with
  | mk da =>
      cases b with
      | mk db =>
          show byteLength (String.mk (da ++ db)) = _
          simp [byteLength]

theorem chunkLoop_size_bound (k : Int) (Q : String → Prop) :
    ∀ (sections : List String) (cur : String) (sz : Int),
      sz = (byteLength cur : Int) →
      ((byteLength cur : Int) ≤ k ∨ Q cur) →
      (∀ s ∈ sections, Q s) →
      ∀ chunk ∈ chunkLoop k sections cur sz,
        (byteLength chunk : Int) ≤ k ∨ Q chunk := by
  intro sections
  induction sections with
  | nil =>
      intro cur sz hsz hcur hall chunk hmem
      by_cases h : cur.length > 0
      · simp only [chunkLoop, if_pos h, List.mem_singleton] at hmem
        subst hmem
        exact hcur
      · simp [chunkLoop, if_neg h] at hmem
  | cons s rest ih =>
      intro cur sz hsz hcur hall chunk hmem
      by_cases h : sz + (byteLength s : Int) > k ∧ cur.length > 0
      · simp only [chunkLoop, if_pos h, List.mem_cons] at hmem
        rcases hmem with rfl | hmem
        · exact hcur
        · exact ih s (byteLength s) rfl
            (Or.inr (hall s (List.mem_cons_self s rest)))
            (fun t ht => hall t (List.mem_cons_of_mem s ht)) chunk hmem
      · simp only [chunkLoop, if_neg h] at hmem
        have hQs : Q s := hall s (List.mem_cons_self s rest)
        have hnew : (byteLength (cur ++ s) : Int) ≤ k ∨ Q (cur ++ s) := by
          rcases not_and_or.mp h with h1 | h2
          · left
            rw [byteLength_append]
            push_cast
            omega
          · have hc : cur = "" := string_length_zero (by omega)
            subst hc
            right
            simpa using hQs
        refine ih (cur ++ s) (sz + (byteLength s : Int)) ?_ hnew
          (fun t ht => hall t (List.mem_cons_of_mem s ht)) chunk hmem
        rw [byteLength_append]
        push_cast
        omega

/-- C4: for a positive chunk size, every returned chunk either fits in
`maxChunkBytes` measured in UTF-8 bytes, or is exactly one file section of
the diff (the single-oversized-file exception). -/
theorem splitDiffIntoChunks_size_bound (instCS : Int) (diff : String) (m : Int)
    (hm : 0 < m) :
    ∀ chunk ∈ splitDiffIntoChunks instCS diff (some m),
      (byteLength chunk : Int) ≤ m ∨ chunk ∈ splitFileSections diff := by
  intro chunk hmem
  have hm0 : ¬(m = 0) := by omega
  have hm1 : ¬(m ≤ 0) := by omega
  by_cases hd : diff.length = 0
  · simp [splitDiffIntoChunks, hd] at hmem
  · simp only [splitDiffIntoChunks, hm0, if_false, if_neg hd, if_neg hm1] at hmem
    exact chunkLoop_size_bound m (fun c => c ∈ splitFileSections diff)
      (splitFileSections diff) "" 0 (by simp [byteLength_empty])
      (Or.inl (by simp [byteLength_empty]; omega))
      (fun t ht => ht) chunk hmem

/-- Witness for C4: chunk size 5, two file sections of 11 bytes each; the
first returned chunk is oversized and is exactly one file section. -/
theorem splitDiffIntoChunks_size_bound_witness :
    (byteLength "--- File: a" : Int) ≤ 5 ∨
      "--- File: a" ∈ splitFileSections "--- File: a--- File: b" :=
  splitDiffIntoChunks_size_bound 300 "--- File: a--- File: b" 5 (by decide)
    "--- File: a" (by decide)

/-- C2 amended: a negative explicit `maxChunkSize` (a truthy JS number) does
hit the invalid-size fallback and yields the whole diff as a single chunk,
but `maxChunkSize = 0` is falsy in `maxChunkSize || this.chunkSize`, so it is
treated exactly like an absent argument: the instance chunk size is used and
the diff is split normally. -/
theorem splitDiffIntoChunks_invalid_size (instCS : Int) (diff : String) (m : Int)
    (hd : diff ≠ "") (hm : m < 0) :
    splitDiffIntoChunks instCS diff (some m) = [diff] ∧
    splitDiffIntoChunks instCS diff (some 0) =
      splitDiffIntoChunks instCS diff none := by
  constructor
  · have hd0 : ¬(diff.length = 0) := fun h => hd (string_length_zero h)
    have hm0 : ¬(m = 0) := by omega
    have hm1 : m ≤ 0 := by omega
    simp [splitDiffIntoChunks, hm0, hd0, hm1]
  · simp [splitDiffIntoChunks]

/-- Witness for the amended C2 at a concrete two-byte diff. -/
theorem splitDiffIntoChunks_invalid_size_witness :
    splitDiffIntoChunks 300 "ab" (some (-5)) = ["ab"] ∧
    splitDiffIntoChunks 300 "ab" (some 0) = splitDiffIntoChunks 300 "ab" none :=
  splitDiffIntoChunks_invalid_size 300 "ab" (-5) (by decide) (by decide)

/-- A file section of 307201 bytes, one byte over
`CONFIG.DEFAULT_CHUNK_SIZE = 307200`. -/
def xRun : String := String.mk (List.replicate 307201 'x')

/-- A concrete non-empty diff larger than `CONFIG.DEFAULT_CHUNK_SIZE`, made
of the oversized section `xRun` followed by a second file section. -/
def bigDiff : String := xRun ++ "--- File: b"

theorem sectionsGo_run (rest : List Char) : ∀ (n : ℕ) (acc : List Char),
    sectionsGo acc (List.replicate n 'x' ++ rest) =
      sectionsGo (List.replicate n 'x' ++ acc) rest := by
  intro n
  induction n with
  | zero => intro acc; simp
  | succ k ih =>
      intro acc
      have hnp : fileMarker.isPrefixOf ('x' :: (List.replicate k 'x' ++ rest)) = false := rfl
      rw [List.replicate_succ, List.cons_append]
      simp only [sectionsGo, hnp, Bool.false_eq_true, false_and, if_false]
      rw [ih ('x' :: acc)]
      congr 1
      have hsw : List.replicate k 'x' ++ 'x' :: acc
          = (List.replicate k 'x' ++ ['x']) ++ acc := by simp
      rw [hsw, ← List.replicate_succ', List.replicate_succ]

theorem mkAppendData (a : List Char) (s : String) :
    (String.mk a ++ s).data = a ++ s.data :=
  String.data_append (String.mk a) s

theorem length_mk_replicate (n : ℕ) :
    (String.mk (List.replicate n 'x')).length = n := by
  show (List.replicate n 'x').length = n
  exact List.length_replicate n 'x'

theorem byteLength_mk_replicate (n : ℕ) :
    byteLength (String.mk (List.replicate n 'x')) = n := by
  show ((List.replicate n 'x').map charUtf8Size).sum = n
  rw [List.map_replicate]
  have h : charUtf8Size 'x' = 1 := rfl
  rw [h, List.sum_replicate]
  simp

theorem byteLength_xRun : byteLength xRun = 307201 := byteLength_mk_replicate 307201

theorem xRun_length : xRun.length = 307201 := length_mk_replicate 307201

theorem bigDiff_data :
    bigDiff.data = List.replicate 307201 'x' ++ "--- File: b".data :=
  mkAppendData (List.replicate 307201 'x') "--- File: b"

theorem bigDiff_length : bigDiff.length = 307212 := by
  show bigDiff.data.length = 307212
  rw [bigDiff_data, List.length_append, List.length_replicate]
  rfl

theorem bigDiff_length_ne : ¬(bigDiff.length = 0) := by
  intro h0
  rw [bigDiff_length] at h0
  omega

theorem replicate_x_ne_nil : List.replicate 307201 'x' ≠ ([] : List Char) := by
  intro h
  have h2 := congrArg List.length h
  rw [List.length_replicate, List.length_nil] at h2
  omega

theorem splitFileSections_bigDiff :
    splitFileSections bigDiff = [xRun, "--- File: b"] := by
  have h1 : bigDiff.toList = List.replicate 307201 'x' ++ "--- File: b".toList :=
    bigDiff_data
  unfold splitFileSections
  rw [h1, sectionsGo_run, List.append_nil]
  have hcs : "--- File: b".toList = '-' :: "-- File: b".toList := rfl
  have hpre : fileMarker.isPrefixOf ('-' :: "-- File: b".toList) = true := rfl
  rw [hcs]
  simp only [sectionsGo]
  rw [if_pos (And.intro hpre replicate_x_ne_nil)]
  rw [List.reverse_replicate]
  rfl

theorem chunkLoop_cons_over (k : Int) (s : String) (rest : List String)
    (cur : String) (sz : Int)
    (h : sz + (byteLength s : Int) > k ∧ cur.length > 0) :
    chunkLoop k (s :: rest) cur sz =
      cur :: chunkLoop k rest s (byteLength s : Int) := by
  simp only [chunkLoop, if_pos h]

theorem chunkLoop_cons_fit (k : Int) (s : String) (rest : List String)
    (cur : String) (sz : Int)
    (h : ¬(sz + (byteLength s : Int) > k ∧ cur.length > 0)) :
    chunkLoop k (s :: rest) cur sz =
      chunkLoop k rest (cur ++ s) (sz + (byteLength s : Int)) := by
  simp only [chunkLoop, if_neg h]

theorem chunkLoop_nil_pos (k : Int) (cur : String) (sz : Int)
    (h : cur.length > 0) : chunkLoop k [] cur sz = [cur] := by
  simp only [chunkLoop, if_pos h]

theorem empty_append_str (s : String) : "" ++ s = s := by
  cases s with
  | mk d => rfl

/-- C2 counterexample: the claim fails on the code at `maxChunkBytes = 0`.
With the instance chunk size at its only value in the source,
`CONFIG.DEFAULT_CHUNK_SIZE`, a non-empty diff of two file sections whose
first section is one byte oversized is split into two chunks, not into one
chunk holding the whole diff. -/
theorem splitDiffIntoChunks_zero_counterexample :
    bigDiff ≠ "" ∧
    splitDiffIntoChunks DEFAULT_CHUNK_SIZE bigDiff (some 0) = [xRun, "--- File: b"] ∧
    splitDiffIntoChunks DEFAULT_CHUNK_SIZE bigDiff (some 0) ≠ [bigDiff] := by
  have hcond1 : ¬((0 : Int) + (byteLength xRun : Int) > DEFAULT_CHUNK_SIZE ∧
      ("" : String).length > 0) := by
    intro h
    exact absurd h.2 (by decide)
  have hcond2 : ((0 : Int) + (byteLength xRun : Int) + (byteLength "--- File: b" : Int) >
      DEFAULT_CHUNK_SIZE ∧ ("" ++ xRun).length > 0) := by
    constructor
    · rw [byteLength_xRun]
      decide
    · rw [empty_append_str, xRun_length]
      omega
  have heval : splitDiffIntoChunks DEFAULT_CHUNK_SIZE bigDiff (some 0) =
      [xRun, "--- File: b"] := by
    have hk : ¬(DEFAULT_CHUNK_SIZE ≤ (0 : Int)) := by decide
    show (if bigDiff.length = 0 then []
      else if DEFAULT_CHUNK_SIZE ≤ 0 then [bigDiff]
      else chunkLoop DEFAULT_CHUNK_SIZE (splitFileSections bigDiff) "" 0) = _
    rw [if_neg bigDiff_length_ne, if_neg hk, splitFileSections_bigDiff]
    rw [chunkLoop_cons_fit _ _ _ _ _ hcond1, empty_append_str,
      chunkLoop_cons_over _ _ _ _ _ (by rwa [empty_append_str] at hcond2)]
    rw [chunkLoop_nil_pos _ _ _ (by decide)]
  refine ⟨?_, heval, ?_⟩
  · intro h
    have := bigDiff_length
    rw [h] at this
    simp [String.length] at this
  · rw [heval]
    intro h
    have h2 := congrArg List.length h
    simp at h2

/-- One issue record as read by the decision logic out of a parsed JSON
block: only the fields `checkMergeDecision` consults are modelled
(`severity_score` and `category` feed log output only). -/
structure Issue where
  id : String
  category : String
  severity_proposed : String
  severity_score : Option Rat
  confidence : Rat

/-- The `metrics` object of a parsed JSON block. -/
structure Metrics where
  critical_count : Int

/-- One parsed fenced JSON block of an LLM response, restricted to the
fields `checkMergeDecision` reads. -/
structure ReviewData where
  final_recommendation : Option String
  issues : List Issue
  metrics : Option Metrics

/-- Model of `checkMergeDecisionLegacy(llmResponse)` (`src/src/index.js`
lines 1152-1186): lowercase the response, return false on any approval
phrase, else true on any blocking phrase, else true when at least two
critical-issue keywords occur, else false. -/
def checkMergeDecisionLegacy (llmResponse : String) : Bool :=
  let response := strToLower llmResponse
  if APPROVAL_PHRASES.any (fun phrase => strIncludes response phrase) then false
  else if BLOCKING_PHRASES.any (fun phrase => strIncludes response phrase) then true
  else if 2 ≤ CRITICAL_ISSUES.countP (fun issue => strIncludes response issue) then true
  else false

/-- The successfully parsed blocks: `JSON.parse` failures (`none`) are
skipped by the per-block try/catch. -/
def parsedBlocks (blocks : List (Option ReviewData)) : List ReviewData :=
  blocks.filterMap id

/-- Model of the `hasBlockingRecommendation` accumulator of
`checkMergeDecision`: some parsed block carries
`final_recommendation === 'do_not_merge'`. -/
def hasBlockingRecommendation (blocks : List (Option ReviewData)) : Bool :=
  (parsedBlocks blocks).any (fun rd => rd.final_recommendation == some "do_not_merge")

/-- Model of the `allIssues` accumulator of `checkMergeDecision`: the issues
of all parsed blocks in order. The source also tags each issue with its
chunk index and original id, which feed log output only and are omitted. -/
def allIssues (blocks : List (Option ReviewData)) : List Issue :=
  (parsedBlocks blocks).flatMap (fun rd => rd.issues)

/-- The filter of `checkMergeDecision` selecting critical issues with
confidence at least 0.6. -/
def isHighConfidenceCritical (issue : Issue) : Bool :=
  issue.severity_proposed == "critical" && decide ((6 : Rat)/10 ≤ issue.confidence)

/-- Model of the `totalCriticalCount` accumulator of `checkMergeDecision`:
`metrics.critical_count || 0` summed over the parsed blocks. -/
def totalCriticalCount (blocks : List (Option ReviewData)) : Int :=
  (parsedBlocks blocks).foldl
    (fun acc rd => acc + (match rd.metrics with
      | some m => m.critical_count
      | none => 0)) 0

/-- Model of `checkMergeDecision(llmResponse)` (`src/src/index.js` lines
1045-1147). The regex extraction of fenced JSON blocks together with
`JSON.parse` of each block is abstracted as the `parse` argument (both are
JS runtime primitives); a block whose parse fails is `none`. When at least
one fenced block was matched the structured path runs: block when some
chunk recommended blocking, else when a critical issue with confidence at
least 0.6 exists, else when the summed critical count is positive, else
allow. With no fenced block the legacy free-text path decides. -/
def checkMergeDecision (parse : String → List (Option ReviewData))
    (llmResponse : String) : Bool :=
  let jsonMatches := parse llmResponse
  if 0 < jsonMatches.length then
    if hasBlockingRecommendation jsonMatches then true
    else if 0 < (allIssues jsonMatches).length ∧
        0 < ((allIssues jsonMatches).filter isHighConfidenceCritical).length then true
    else if 0 < totalCriticalCount jsonMatches then true
    else false
  else checkMergeDecisionLegacy llmResponse

/-- Model of `combineLLMResponses(responses, totalChunks)`
(`src/src/index.js` lines 1023-1040): a fixed message for no results, the
single response unchanged, otherwise the in-order concatenation of all
responses (`totalChunks` is not consulted). -/
def combineLLMResponses (responses : List String) (totalChunks : ℕ) : String :=
  match responses with
  | [] => "No review results available."
  | [r] => r
  | _ :: _ :: _ => responses.foldl (fun combined r => combined ++ r) ""

theorem hasBlockingRecommendation_iff (blocks : List (Option ReviewData)) :
    hasBlockingRecommendation blocks = true ↔
      ∃ rd ∈ blocks.filterMap id, rd.final_recommendation = some "do_not_merge" := by
  unfold hasBlockingRecommendation parsedBlocks
  rw [List.any_eq_true]
  constructor
  · rintro ⟨rd, hrd, hp⟩
    exact ⟨rd, hrd, by simpa using hp⟩
  · rintro ⟨rd, hrd, hp⟩
    exact ⟨rd, hrd, by simpa using hp⟩

theorem filter_length_pos_iff {α : Type} (l : List α) (p : α → Bool) :
    0 < (l.filter p).length ↔ ∃ i ∈ l, p i = true := by
  rw [List.length_pos]
  constructor
  · intro hne
    obtain ⟨i, hi⟩ := List.exists_mem_of_ne_nil _ hne
    have h2 := List.mem_filter.mp hi
    exact ⟨i, h2.1, h2.2⟩
  · rintro ⟨i, hi, hp⟩
    intro hnil
    have hmem : i ∈ l.filter p := List.mem_filter.mpr ⟨hi, hp⟩
    rw [hnil] at hmem
    simp at hmem

theorem criticalIssue_iff (blocks : List (Option ReviewData)) :
    (0 < (allIssues blocks).length ∧
      0 < ((allIssues blocks).filter isHighConfidenceCritical).length) ↔
    ∃ rd ∈ blocks.filterMap id, ∃ i ∈ rd.issues,
      i.severity_proposed = "critical" ∧ (6 : Rat)/10 ≤ i.confidence := by
  rw [filter_length_pos_iff]
  constructor
  · rintro ⟨-, i, hi, hp⟩
    obtain ⟨rd, hrd, hird⟩ := List.mem_flatMap.mp hi
    refine ⟨rd, hrd, i, hird, ?_⟩
    simpa [isHighConfidenceCritical] using hp
  · rintro ⟨rd, hrd, i, hird, hs, hc⟩
    have hi : i ∈ allIssues blocks :=
      List.mem_flatMap.mpr ⟨rd, hrd, hird⟩
    refine ⟨List.length_pos.mpr ?_, i, hi, ?_⟩
    · intro hnil
      rw [hnil] at hi
      simp at hi
    · simp [isHighConfidenceCritical, hs, hc]

theorem foldl_add_eq_sum (f : ReviewData → Int) (l : List ReviewData) :
    ∀ a : Int, l.foldl (fun acc rd => acc + f rd) a = a + (l.map f).sum := by
  induction l with
  | nil => intro a; simp
  | cons rd l ih =>
      intro a
      rw [List.foldl_cons, ih (a + f rd), List.map_cons, List.sum_cons]
      ring

theorem totalCriticalCount_eq_sum (blocks : List (Option ReviewData)) :
    totalCriticalCount blocks =
      ((blocks.filterMap id).map (fun rd => match rd.metrics with
        | some m => m.critical_count
        | none => 0)).sum := by
  unfold totalCriticalCount parsedBlocks
  rw [foldl_add_eq_sum]
  ring

/-- C1: on a response with at least one fenced JSON block, the structured
merge decision blocks exactly when some parsed block recommends
`do_not_merge`, or some issue of a parsed block is critical with confidence
at least 0.6, or the summed `metrics.critical_count` over the parsed blocks
is positive — checked in that order; otherwise it allows. -/
theorem checkMergeDecision_spec (parse : String → List (Option ReviewData))
    (llmResponse : String) (h : parse llmResponse ≠ []) :
    checkMergeDecision parse llmResponse = true ↔
      ((∃ rd ∈ (parse llmResponse).filterMap id,
          rd.final_recommendation = some "do_not_merge") ∨
       (∃ rd ∈ (parse llmResponse).filterMap id, ∃ i ∈ rd.issues,
          i.severity_proposed = "critical" ∧ (6 : Rat)/10 ≤ i.confidence) ∨
       0 < (((parse llmResponse).filterMap id).map (fun rd => match rd.metrics with
          | some m => m.critical_count
          | none => 0)).sum) := by
  have hlen : 0 < (parse llmResponse).length := List.length_pos.mpr h
  simp only [checkMergeDecision, if_pos hlen]
  rw [← hasBlockingRecommendation_iff, ← criticalIssue_iff, ← totalCriticalCount_eq_sum]
  by_cases h1 : hasBlockingRecommendation (parse llmResponse) = true
  · simp [h1]
  · rw [if_neg (by simpa using h1)]
    by_cases h2 : 0 < (allIssues (parse llmResponse)).length ∧
        0 < ((allIssues (parse llmResponse)).filter isHighConfidenceCritical).length
    · simp [h1, h2]
    · rw [if_neg h2]
      by_cases h3 : 0 < totalCriticalCount (parse llmResponse)
      · simp [h1, h2, h3]
      · simp [h1, h2, h3]

/-- The single JSON block of the spec example: one critical issue with
confidence 0.3 and `metrics.critical_count` 0. -/
def exampleIssue : Issue :=
  { id := "SEC-1", category := "security", severity_proposed := "critical",
    severity_score := none, confidence := 3/10 }

/-- The parsed block list of the spec example. -/
def exampleBlock : ReviewData :=
  { final_recommendation := none, issues := [exampleIssue],
    metrics := some { critical_count := 0 } }

/-- Witness for C1 at the spec example: a single block with one critical
issue at confidence 0.3 and a zero critical count does not block. -/
theorem checkMergeDecision_spec_witness :
    checkMergeDecision (fun _ => [some exampleBlock]) "resp" = false := by
  have h := checkMergeDecision_spec (fun _ => [some exampleBlock]) "resp" (by simp)
  rw [← Bool.not_eq_true, h]
  rintro (h1 | h2 | h3)
  · obtain ⟨rd, hrd, hp⟩ := h1
    simp [exampleBlock] at hrd
    subst hrd
    simp [exampleBlock] at hp
  · obtain ⟨rd, hrd, i, hi, hs, hc⟩ := h2
    simp [exampleBlock] at hrd
    subst hrd
    simp [exampleBlock] at hi
    subst hi
    norm_num [exampleIssue] at hc
  · have hz : (List.map
        (fun rd => match rd.metrics with
          | some m => m.critical_count
          | none => 0)
        (List.filterMap id ((fun _ => [some exampleBlock]) "resp"))).sum = 0 := rfl
    rw [hz] at h3
    norm_num at h3

/-- C8: aggregation is a pure function of the ordered response list — equal
input lists give the same combined text and the same merge verdict, the
input list is not consumed, and for a non-empty list the combined text is
exactly the in-order concatenation of the unchanged responses (no clock,
randomness, or iteration-order dependence). -/
theorem aggregation_deterministic (parse : String → List (Option ReviewData))
    (responses1 responses2 : List String) (total1 total2 : ℕ)
    (hr : responses1 = responses2) (ht : total1 = total2) :
    combineLLMResponses responses1 total1 = combineLLMResponses responses2 total2 ∧
    checkMergeDecision parse (combineLLMResponses responses1 total1) =
      checkMergeDecision parse (combineLLMResponses responses2 total2) ∧
    (responses1 ≠ [] → combineLLMResponses responses1 total1 = String.join responses1) := by
  subst hr
  subst ht
  refine ⟨rfl, rfl, ?_⟩
  intro hne
  match responses1 with
  | [] => exact absurd rfl hne
  | [r] =>
      show r = String.join [r]
      rw [string_join_cons]
      simp [String.join]
  | a :: b :: rest =>
      show (a :: b :: rest).foldl (fun combined r => combined ++ r) "" = _
      rw [string_foldl_append]
      simp

/-- Witness for C8 at a concrete two-response list. -/
theorem aggregation_deterministic_witness :
    combineLLMResponses ["alpha", "beta"] 2 = combineLLMResponses ["alpha", "beta"] 2 ∧
    checkMergeDecision (fun _ => []) (combineLLMResponses ["alpha", "beta"] 2) =
      checkMergeDecision (fun _ => []) (combineLLMResponses ["alpha", "beta"] 2) ∧
    (["alpha", "beta"] ≠ ([] : List String) →
      combineLLMResponses ["alpha", "beta"] 2 = String.join ["alpha", "beta"]) :=
  aggregation_deterministic (fun _ => []) ["alpha", "beta"] ["alpha", "beta"] 2 2 rfl rfl

/-- C10: in the legacy free-text path an approval phrase forces allow even
when blocking phrases and critical-issue keywords are present, and with no
approval phrase, no blocking phrase and fewer than two critical-issue
keywords the default is also allow. -/
theorem checkMergeDecisionLegacy_spec (llmResponse : String) :
    ((APPROVAL_PHRASES.any fun phrase => strIncludes (strToLower llmResponse) phrase) = true →
      checkMergeDecisionLegacy llmResponse = false) ∧
    ((APPROVAL_PHRASES.any fun phrase => strIncludes (strToLower llmResponse) phrase) = false →
      (BLOCKING_PHRASES.any fun phrase => strIncludes (strToLower llmResponse) phrase) = false →
      (CRITICAL_ISSUES.countP fun issue => strIncludes (strToLower llmResponse) issue) < 2 →
      checkMergeDecisionLegacy llmResponse = false) := by
  constructor
  · intro h
    simp only [checkMergeDecisionLegacy]
    rw [if_pos h]
  · intro h1 h2 h3
    simp only [checkMergeDecisionLegacy]
    rw [if_neg (by simp [h1]), if_neg (by simp [h2]), if_neg (by omega)]

/-- Witness for C10: an approval phrase wins over a blocking phrase and two
critical keywords, and a neutral response defaults to allow. -/
theorem checkMergeDecisionLegacy_spec_witness :
    checkMergeDecisionLegacy
      "Critical issues found: memory leak and race condition. Overall it is safe to merge." = false ∧
    checkMergeDecisionLegacy "Looks fine to me." = false :=
  And.intro
    ((checkMergeDecisionLegacy_spec
      "Critical issues found: memory leak and race condition. Overall it is safe to merge.").1
      (by decide))
    ((checkMergeDecisionLegacy_spec "Looks fine to me.").2 (by decide) (by decide) (by decide))

/-- What one attempt of `callLLMChunk` observes from the outside world:
either the dynamic import of `node-fetch` fails, or `fetch` yields a
response with a status, the parsed error body text
(`parseErrorResponse(errorText)`), the parsed `retry-after` header, and —
for a 2xx response — the text extracted by the provider's
`extractResponse` after `validateLLMResponse` (`none` when validation or
extraction fails). -/
inductive FetchOutcome where
  | moduleError : FetchOutcome
  | httpResp (status : Nat) (errorData : String) (retryAfterHeader : Option Nat)
      (extracted : Option String) : FetchOutcome

/-- JS `response.ok`: status in the 2xx range. -/
def respOk (status : Nat) : Bool :=
  decide (200 ≤ status) && decide (status ≤ 299)

/-- The constant `maxRetries = 3` of `callLLMChunk`. -/
def maxRetries : Nat := 3

/-- The constant `baseDelay = 1000` ms of `callLLMChunk`. -/
def baseDelay : Nat := 1000

/-- Model of `handleTokenLimitExceeded(chunkIndex, totalChunks)`
(`src/src/index.js` lines 811-830): the synthesized placeholder review text
(the source contraction in its second sentence is written out here). -/
def handleTokenLimitExceeded (chunkIndex totalChunks : Nat) : String :=
  "**CHUNK " ++ toString (chunkIndex + 1) ++ "/" ++ toString totalChunks ++
  " - TOKEN LIMIT EXCEEDED**\n\nThis chunk was too large to process completely. Here is a summary of what was detected:\n\n🔍 **Large Code Changes Detected**\n- This chunk contains significant code changes\n- Manual review recommended for this section\n- Consider breaking down large files into smaller changes\n\n⚠️ **Recommendation**: Please review this code section manually to ensure:\n- No security vulnerabilities\n- Proper error handling\n- Performance considerations\n- Code quality standards\n\n*Note: This is an automated summary due to token limits. Full review requires manual inspection.*"

/-- The observable outcome of `callLLMChunk`: the returned value (`none`
models `null`), the number of loop iterations performed, and every
`setTimeout` wait in ms, in order. -/
structure ChunkCallTrace where
  result : Option String
  attempts : Nat
  waits : List Nat

/-- Model of the retry loop of `callLLMChunk(prompt, diffChunk, chunkIndex,
totalChunks)` (`src/src/index.js` lines 862-959). `attempt` is the 1-based
loop counter and `fuel` the number of iterations left
(`maxRetries - attempt + 1`), so running out of fuel is the loop exiting
and returning `null`. Each iteration: an unsupported provider throws and is
caught by the generic handler (retry with exponential backoff, `null` on
the last attempt); a missing API key returns `null` at once; then the fetch
outcome is inspected — 429 waits for the `retry-after` hint (falling back
to 2^attempt seconds when the header is absent or the falsy 0) and
retries; a 400 whose error body mentions a token limit returns the
synthesized placeholder at once; a 5xx waits `baseDelay * 2^(attempt-1)` ms
and retries; any other non-2xx status throws into the generic handler; a
2xx response whose extracted text is missing or whitespace-only (JS
`result.trim().length === 0`) also throws into the generic handler; a 2xx
response with usable text returns it. -/
def callLLMChunkGo (provider : String) (apiKey : Option String)
    (env : Nat → FetchOutcome) (chunkIndex totalChunks : Nat) :
    Nat → Nat → ChunkCallTrace
  | _, 0 => ⟨none, 0, []⟩
  | attempt, fuel + 1 =>
    if ¬(provider = "openai" ∨ provider = "claude") then
      if attempt = maxRetries then ⟨none, 1, []⟩
      else
        let t := callLLMChunkGo provider apiKey env chunkIndex totalChunks (attempt + 1) fuel
        ⟨t.result, t.attempts + 1, baseDelay * 2 ^ (attempt - 1) :: t.waits⟩
    else
      match apiKey with
      | none => ⟨none, 1, []⟩
      | some _ =>
        match env attempt with
        | .moduleError => ⟨none, 1, []⟩
        | .httpResp status errorData retryAfterHeader extracted =>
          if respOk status then
            match extracted with
            | some text =>
                if text.data.any (fun c => !c.isWhitespace) then ⟨some text, 1, []⟩
                else if attempt = maxRetries then ⟨none, 1, []⟩
                else
                  let t := callLLMChunkGo provider apiKey env chunkIndex totalChunks
                    (attempt + 1) fuel
                  ⟨t.result, t.attempts + 1, baseDelay * 2 ^ (attempt - 1) :: t.waits⟩
            | none =>
                if attempt = maxRetries then ⟨none, 1, []⟩
                else
                  let t := callLLMChunkGo provider apiKey env chunkIndex totalChunks
                    (attempt + 1) fuel
                  ⟨t.result, t.attempts + 1, baseDelay * 2 ^ (attempt - 1) :: t.waits⟩
          else
            if status = 429 then
              let retryAfter :=
                match retryAfterHeader with
                | some v => if v = 0 then 2 ^ attempt else v
                | none => 2 ^ attempt
              let t := callLLMChunkGo provider apiKey env chunkIndex totalChunks
                (attempt + 1) fuel
              ⟨t.result, t.attempts + 1, retryAfter * 1000 :: t.waits⟩
            else if status = 400 ∧ strIncludes errorData "token" = true then
              ⟨some (handleTokenLimitExceeded chunkIndex totalChunks), 1, []⟩
            else if 500 ≤ status then
              let t := callLLMChunkGo provider apiKey env chunkIndex totalChunks
                (attempt + 1) fuel
              ⟨t.result, t.attempts + 1, baseDelay * 2 ^ (attempt - 1) :: t.waits⟩
            else
              if attempt = maxRetries then ⟨none, 1, []⟩
              else
                let t := callLLMChunkGo provider apiKey env chunkIndex totalChunks
                  (attempt + 1) fuel
                ⟨t.result, t.attempts + 1, baseDelay * 2 ^ (attempt - 1) :: t.waits⟩

/-- Model of `callLLMChunk`: run the retry loop from attempt 1 with
`maxRetries` iterations available. -/
def callLLMChunk (provider : String) (apiKey : Option String)
    (env : Nat → FetchOutcome) (chunkIndex totalChunks : Nat) : ChunkCallTrace :=
  callLLMChunkGo provider apiKey env chunkIndex totalChunks 1 maxRetries

/-- C5: when every attempt yields HTTP 503, `callLLMChunk` performs exactly
`maxRetries = 3` attempts, sleeps the exponentially growing backoff delays
1000, 2000 and 4000 ms, and returns null instead of throwing. -/
theorem callLLMChunk_all_503 (apiKey : String) (env : Nat → FetchOutcome)
    (errText : Nat → String) (hdr : Nat → Option Nat) (ext : Nat → Option String)
    (henv : ∀ n, env n = .httpResp 503 (errText n) (hdr n) (ext n))
    (chunkIndex totalChunks : Nat) :
    callLLMChunk "claude" (some apiKey) env chunkIndex totalChunks =
      ⟨none, 3, [1000, 2000, 4000]⟩ := by
  have h1 := henv 1
  have h2 := henv 2
  have h3 := henv 3
  simp [callLLMChunk, maxRetries, callLLMChunkGo, h1, h2, h3, respOk, baseDelay]

/-- Witness for C5: a concrete environment answering 503 forever. -/
theorem callLLMChunk_all_503_witness :
    callLLMChunk "claude" (some "key")
      (fun _ => FetchOutcome.httpResp 503 "Service Unavailable" none none) 0 4 =
      ⟨none, 3, [1000, 2000, 4000]⟩ :=
  callLLMChunk_all_503 "key"
    (fun _ => FetchOutcome.httpResp 503 "Service Unavailable" none none)
    (fun _ => "Service Unavailable") (fun _ => none) (fun _ => none)
    (fun _ => rfl) 0 4

/-- C6: a 400 response whose error body mentions a token limit makes
`callLLMChunk` return the synthesized placeholder immediately on that
attempt — one attempt, no waits, a non-null result. -/
theorem callLLMChunk_token_limit_400 (apiKey : String) (env : Nat → FetchOutcome)
    (errorData : String) (hdr : Option Nat) (ext : Option String)
    (henv : env 1 = .httpResp 400 errorData hdr ext)
    (htok : strIncludes errorData "token" = true)
    (chunkIndex totalChunks : Nat) :
    callLLMChunk "claude" (some apiKey) env chunkIndex totalChunks =
      ⟨some (handleTokenLimitExceeded chunkIndex totalChunks), 1, []⟩ := by
  simp [callLLMChunk, maxRetries, callLLMChunkGo, henv, htok, respOk]

/-- Witness for C6: a concrete 400 response mentioning the token limit. -/
theorem callLLMChunk_token_limit_400_witness :
    callLLMChunk "claude" (some "key")
      (fun _ => FetchOutcome.httpResp 400 "max tokens exceeded" none none) 0 4 =
      ⟨some (handleTokenLimitExceeded 0 4), 1, []⟩ :=
  callLLMChunk_token_limit_400 "key"
    (fun _ => FetchOutcome.httpResp 400 "max tokens exceeded" none none)
    "max tokens exceeded" none none rfl (by decide) 0 4

/-- The sequential path of `processChunksIntelligently` (`src/src/index.js`
lines 756-770): one dispatch per chunk in order, pushing each result. -/
def seqGo (callChunk : Nat → String → Option String) :
    List String → Nat → List (Option String)
  | [], _ => []
  | c :: rest, i => callChunk i c :: seqGo callChunk rest (i + 1)

/-- The batched path of `processChunksIntelligently` (`src/src/index.js`
lines 771-791): slices of `maxConcurrent = Math.min(2, chunks.length)`
chunks — always 2 on this path, which requires at least 4 chunks — are
dispatched with `Promise.all` and appended in slice order. -/
def batchGo (callChunk : Nat → String → Option String) :
    List String → Nat → List (Option String)
  | [], _ => []
  | [c], i => [callChunk i c]
  | c1 :: c2 :: rest, i =>
      callChunk i c1 :: callChunk (i + 1) c2 :: batchGo callChunk rest (i + 2)

/-- Model of `processChunksIntelligently(prompt, chunks)`
(`src/src/index.js` lines 753-794). The per-chunk dispatch
`this.callLLMChunk(prompt, chunks[i], i, chunks.length)` is abstracted as
`callChunk i chunk` (prompt and chunk count are fixed for one run);
`await`, logging and the inter-request and inter-batch delays sequence the
calls but leave no trace in the collected result list. -/
def processChunksIntelligently (callChunk : Nat → String → Option String)
    (chunks : List String) : List (Option String) :=
  if chunks.length ≤ 3 then seqGo callChunk chunks 0
  else batchGo callChunk chunks 0

theorem seqGo_eq_mapIdx (callChunk : Nat → String → Option String)
    (chunks : List String) : ∀ i : Nat,
    seqGo callChunk chunks i = chunks.mapIdx fun j c => callChunk (i + j) c := by
  induction chunks with
  | nil => intro i; simp [seqGo]
  | cons c rest ih =>
      intro i
      simp only [seqGo, List.mapIdx_cons]
      rw [ih (i + 1)]
      have hf : (fun j d => callChunk (i + 1 + j) d)
          = (fun j d => callChunk (i + (j + 1)) d) := by
        funext j d
        have h2 : i + 1 + j = i + (j + 1) := by omega
        rw [h2]
      rw [hf]
      simp

theorem batchGo_eq_mapIdx (callChunk : Nat → String → Option String) :
    ∀ (chunks : List String) (i : Nat),
    batchGo callChunk chunks i = chunks.mapIdx fun j c => callChunk (i + j) c
  | [], i => by simp [batchGo]
  | [c], i => by simp [batchGo]
  | c1 :: c2 :: rest, i => by
      simp only [batchGo, List.mapIdx_cons]
      rw [batchGo_eq_mapIdx callChunk rest (i + 2)]
      have hf : (fun j d => callChunk (i + 2 + j) d)
          = (fun j d => callChunk (i + (j + 1 + 1)) d) := by
        funext j d
        have h2 : i + 2 + j = i + (j + 1 + 1) := by omega
        rw [h2]
      rw [hf]
      simp

/-- C7: under both the sequential path (taken exactly when the chunk count
is at most 3) and the batched path (pairs of two in-flight calls), the
result list has one entry per chunk and its i-th entry is the dispatch
result of the i-th input chunk. -/
theorem processChunksIntelligently_order (callChunk : Nat → String → Option String)
    (chunks : List String) :
    processChunksIntelligently callChunk chunks =
      chunks.mapIdx (fun i c => callChunk i c) ∧
    (processChunksIntelligently callChunk chunks).length = chunks.length := by
  have hmain : processChunksIntelligently callChunk chunks =
      chunks.mapIdx (fun i c => callChunk i c) := by
    unfold processChunksIntelligently
    by_cases h : chunks.length ≤ 3
    · rw [if_pos h, seqGo_eq_mapIdx]
      simp
    · rw [if_neg h, batchGo_eq_mapIdx]
      simp
  exact ⟨hmain, by rw [hmain, List.length_mapIdx]⟩

/-- Model of `getApiKey()` (`src/src/index.js` lines 850-857): the process
environment is passed explicitly. -/
def getApiKey (provider : String) (envVars : String → Option String) :
    Option String :=
  if provider = "openai" then envVars "OPENAI_API_KEY"
  else if provider = "claude" then envVars "CLAUDE_API_KEY"
  else none

/-- Model of `estimateTokenCount(prompt, diff)` (`src/src/index.js` lines
723-727): `Math.ceil((prompt + diff).length / 4)` on the character count. -/
def estimateTokenCount (prompt diff : String) : Nat :=
  ((prompt ++ diff).length + 3) / 4

/-- Model of `callLLM(prompt, diff)` (`src/src/index.js` lines 964-1018):
return null with no API key; dispatch the whole diff as one chunk when it
fits the instance chunk size and the token estimate; otherwise split
(`splitDiffIntoChunks(diff)`, so with the instance chunk size), return null
when no chunks or no valid results remain, else combine the non-null
results. The per-chunk dispatch is abstracted as `callChunk` as in
`processChunksIntelligently`. -/
def callLLM (provider : String) (envVars : String → Option String)
    (instChunkSize : Int) (callChunk : Nat → String → Option String)
    (prompt diff : String) : Option String :=
  match getApiKey provider envVars with
  | none => none
  | some _ =>
    if (byteLength diff : Int) ≤ instChunkSize ∧
        estimateTokenCount prompt diff < 150000 then
      callChunk 0 diff
    else
      let chunks := splitDiffIntoChunks instChunkSize diff none
      if chunks.length = 0 then none
      else
        let results := processChunksIntelligently callChunk chunks
        let validResults := results.filterMap id
        if validResults.length = 0 then none
        else some (combineLLMResponses validResults chunks.length)

/-- C9: with no API key for the configured provider, `callLLM` returns null
uniformly in the dispatch function — no chunk is ever consulted; with a key
present, on the chunked path, the failure of individual chunks does not
abort the run: as long as one chunk result is non-null, the combination of
the remaining successful results is returned. -/
theorem callLLM_failure_policy (provider : String)
    (envVars : String → Option String) (instChunkSize : Int)
    (prompt diff : String) :
    (getApiKey provider envVars = none →
      ∀ callChunk, callLLM provider envVars instChunkSize callChunk prompt diff = none) ∧
    (∀ apiKey callChunk, getApiKey provider envVars = some apiKey →
      ¬((byteLength diff : Int) ≤ instChunkSize ∧
        estimateTokenCount prompt diff < 150000) →
      splitDiffIntoChunks instChunkSize diff none ≠ [] →
      (processChunksIntelligently callChunk
        (splitDiffIntoChunks instChunkSize diff none)).filterMap id ≠ [] →
      callLLM provider envVars instChunkSize callChunk prompt diff =
        some (combineLLMResponses
          ((processChunksIntelligently callChunk
            (splitDiffIntoChunks instChunkSize diff none)).filterMap id)
          (splitDiffIntoChunks instChunkSize diff none).length)) := by
  constructor
  · intro h callChunk
    simp [callLLM, h]
  · intro apiKey callChunk hk hsmall hchunks hvalid
    simp only [callLLM, hk]
    rw [if_neg hsmall,
      if_neg (fun h0 => hchunks (List.length_eq_zero.mp h0)),
      if_neg (fun h0 => hvalid (List.length_eq_zero.mp h0))]

/-- Witness for C9: a two-section diff on the chunked path where the first
chunk fails and the second succeeds. -/
theorem callLLM_failure_policy_witness :
    callLLM "claude" (fun _ => some "k") 20
      (fun i _ => if i = 0 then none else some "ok") "p" "--- File: a--- File: b" =
      some (combineLLMResponses
        ((processChunksIntelligently (fun i _ => if i = 0 then none else some "ok")
          (splitDiffIntoChunks 20 "--- File: a--- File: b" none)).filterMap id)
        (splitDiffIntoChunks 20 "--- File: a--- File: b" none).length) :=
  (callLLM_failure_policy "claude" (fun _ => some "k") 20 "p" "--- File: a--- File: b").2
    "k" (fun i _ => if i = 0 then none else some "ok") (by decide) (by decide)
    (by decide) (by decide)
